import Mathlib

/-!
Shallow embedding of `src/fin_model_course/lectures/model.py`.

The module defines a small content model for a course website:
`LectureNotes` (a recursive tree of note items with two renderers,
`to_models` and `to_rst`), `LectureResource` (a downloadable or external
link with a custom `__eq__`), `Lecture` and `LectureGroup` (aggregation,
resource deduplication, week filtering).

Python values are embedded as follows: `Optional[X]` becomes `Option X`,
`datetime.datetime` becomes an abstract object characterized by its
`strftime` behaviour, exceptions become `Except String`, and the external
pyexlatex model classes (`top_model` / `sub_model` parameters) become
abstract class identifiers (`Nat`) applied through a free term
representation (`MItem`).
-/

/-- Abstract stand-in for `datetime.datetime`: the only operation the code
uses is `strftime`. -/
structure PyDateTime where
  strftime : String → String

/-- Embedding of the `LectureResource` pydantic dataclass
(`model.py` lines 140-147). -/
structure LectureResource where
  name : String
  static_url : Option String := none
  external_url : Option String := none
  updated : Option PyDateTime := none
  index : Option Int := none
  datetime_fmt : String := "%B%e, %l:%M %p"

/-- Embedding of `LectureResource.__eq__` (lines 149-157) for the case
where `other` is itself a `LectureResource` (so every attribute access
succeeds): `all([name ==, static_url ==, external_url ==])`. -/
def LectureResource.eq (a b : LectureResource) : Bool :=
  (a.name == b.name) && (a.static_url == b.static_url) && (a.external_url == b.external_url)

/-- A duck-typed comparand for `LectureResource.__eq__`: each field is
`some v` when the Python object has that attribute with value `v`, and
`none` when accessing the attribute raises `AttributeError`. -/
structure DuckObj where
  name : Option String
  static_url : Option (Option String)
  external_url : Option (Option String)

/-- Embedding of `LectureResource.__eq__` (lines 149-157) against an
arbitrary object: if any of the three attribute accesses raises
`AttributeError` the `except` branch returns `False`. -/
def LectureResource.eqDuck (a : LectureResource) (o : DuckObj) : Bool :=
  match o.name, o.static_url, o.external_url with
  | some n, some s, some e =>
      (a.name == n) && (a.static_url == s) && (a.external_url == e)
  | _, _, _ => false

/-- Embedding of the `LectureResource.url` property (lines 176-182). -/
def LectureResource.url (r : LectureResource) : Option String :=
  match r.static_url with
  | some s => some ("/_static/" ++ s)
  | none =>
    match r.external_url with
    | some e => some e
    | none => none

/-- Embedding of the `LectureResource.display_name` property
(lines 184-192). -/
def LectureResource.display_name (r : LectureResource) : String :=
  (match r.index with
   | some i => toString i ++ " "
   | none => "") ++
  r.name ++
  (match r.updated with
   | some d => " (updated " ++ d.strftime r.datetime_fmt ++ ")"
   | none => "")

/-- How a Python f-string renders an `Optional[str]` (`str(None)` is
`"None"`). -/
def optToString : Option String → String
  | some s => s
  | none => "None"

/-- Embedding of `LectureResource.to_rst` (lines 194-209) together with the
private helpers `_to_download_rst` and `_to_external_link_rst`; the
`ValueError` branch becomes `Except.error`. -/
def LectureResource.to_rst (r : LectureResource) : Except String String :=
  match r.static_url with
  | some _ =>
      Except.ok ("\n- :download:`" ++ r.display_name ++ " <" ++ optToString r.url ++ ">`\n        ")
  | none =>
    match r.external_url with
    | some _ =>
        Except.ok ("\n- `" ++ r.display_name ++ " <" ++ optToString r.url ++ ">`_\n        ")
    | none => Except.error ("No link provided, cannot form RST")

/-- Items a `LectureNotes` tree (and the helper serializers) can contain:
plain strings, `Serializable` objects (which expose both `to_pyexlatex`,
whose result we name by a `Nat` identifier, and `to_rst`, whose result is
a `String`), raw Python lists/tuples, nested `LectureNotes` (carried as
items plus title), and objects with none of these capabilities. -/
inductive NoteItem where
  | str (s : String)
  | pyex (pl : Nat) (rst : String)
  | list (items : List NoteItem)
  | sub (items : List NoteItem) (title : String)
  | other

/-- Embedding of the `LectureNotes` pydantic dataclass (lines 35-38). -/
structure LectureNotes where
  items : List NoteItem
  title : String

/-- An element of a `current_str_items` run inside
`LectureNotes.to_models`: either a plain string or the result of a
`to_pyexlatex()` call. -/
inductive SP where
  | s (v : String)
  | p (v : Nat)
deriving Repr, DecidableEq

mutual
/-- Free representation of the output of `LectureNotes.to_models`:
`subM cls run` is `sub_model(current_str_items)`, `topM cls items title`
is `model(final_items, title=...)` (used both for the outer `top_model`
call and for the recursive `sub_model` wrap), and the `raw` constructors
are non-string items that the second loop appends unchanged. -/
inductive MItem where
  | subM (cls : Nat) (run : List SP)
  | topM (cls : Nat) (items : List MItem) (title : String)
  | rawList (items : List NoteItem)
  | rawOther
end

/-- An entry of the intermediate `items` list built by the first loop of
`LectureNotes.to_models` (lines 46-51): nested notes are already
converted, everything else is kept as is. -/
inductive Mid where
  | str (s : String)
  | pyex (pl : Nat)
  | model (cls : Nat) (items : List MItem) (title : String)
  | rawList (items : List NoteItem)
  | rawOther

/-- Embedding of the second loop of `LectureNotes.to_models`
(lines 53-72): collect consecutive strings (and `to_pyexlatex()` results)
into `current_str_items` (the accumulator `cur`), flushing them as a
`sub_model(...)` whenever a non-string item arrives and at the end. -/
def groupGo (sub : Nat) : List Mid → List SP → List MItem
  | [], cur => if cur.isEmpty then [] else [MItem.subM sub cur]
  | Mid.str s :: rest, cur => groupGo sub rest (cur ++ [SP.s s])
  | Mid.pyex p :: rest, cur => groupGo sub rest (cur ++ [SP.p p])
  | Mid.model c its t :: rest, cur =>
      (if cur.isEmpty then [] else [MItem.subM sub cur]) ++
        (MItem.topM c its t :: groupGo sub rest [])
  | Mid.rawList its :: rest, cur =>
      (if cur.isEmpty then [] else [MItem.subM sub cur]) ++
        (MItem.rawList its :: groupGo sub rest [])
  | Mid.rawOther :: rest, cur =>
      (if cur.isEmpty then [] else [MItem.subM sub cur]) ++
        (MItem.rawOther :: groupGo sub rest [])

mutual
/-- Embedding of the first loop of `LectureNotes.to_models` (lines 46-51)
for a single item: a nested `LectureNotes` is converted recursively with
`top_model=sub_model, sub_model=sub_model`, which (since that top model is
not `None`) yields `sub_model(final_items, title=item.title)`; every other
item is kept as is. -/
def convertItem (sub : Nat) : NoteItem → Mid
  | NoteItem.str s => Mid.str s
  | NoteItem.pyex pl _ => Mid.pyex pl
  | NoteItem.list its => Mid.rawList its
  | NoteItem.sub its t => Mid.model sub (groupGo sub (convertItems sub its) []) t
  | NoteItem.other => Mid.rawOther

/-- The first loop of `LectureNotes.to_models` over the whole item list. -/
def convertItems (sub : Nat) : List NoteItem → List Mid
  | [] => []
  | i :: rest => convertItem sub i :: convertItems sub rest
end

/-- Embedding of `LectureNotes.to_models` (lines 43-77): build the
intermediate list, group string runs, then wrap in
`top_model(final_items, title=self.title)` when `top_model` is not `None`
(`Sum.inl`), otherwise return the bare `final_items` list (`Sum.inr`). -/
def LectureNotes.to_models (n : LectureNotes) (top : Option Nat) (sub : Nat) :
    MItem ⊕ List MItem :=
  match top with
  | some c => Sum.inl (MItem.topM c (groupGo sub (convertItems sub n.items) []) n.title)
  | none => Sum.inr (groupGo sub (convertItems sub n.items) [])

/-- Prepend one string-run element onto a grouped output, merging it into
the leading `sub_model` run when there is one (so that maximal runs stay
maximal); written from the claim, not from the code. -/
def pushSP (sub : Nat) (x : SP) : List MItem → List MItem
  | MItem.subM c run :: rest => MItem.subM c (x :: run) :: rest
  | out => MItem.subM sub [x] :: out

/-- Spec-side grouping, written from the claim: each maximal run of
consecutive string items (and `to_pyexlatex()` results) becomes a single
`sub_model` instance; every other item is emitted unchanged. -/
def specGroup (sub : Nat) : List Mid → List MItem
  | [] => []
  | Mid.str s :: rest => pushSP sub (SP.s s) (specGroup sub rest)
  | Mid.pyex p :: rest => pushSP sub (SP.p p) (specGroup sub rest)
  | Mid.model c its t :: rest => MItem.topM c its t :: specGroup sub rest
  | Mid.rawList its :: rest => MItem.rawList its :: specGroup sub rest
  | Mid.rawOther :: rest => MItem.rawOther :: specGroup sub rest

mutual
/-- Spec-side conversion of a single item, written from the claim: an item
that is itself a `LectureNotes` is recursively converted with `sub_model`
as its top model. -/
def specConvertItem (sub : Nat) : NoteItem → Mid
  | NoteItem.str s => Mid.str s
  | NoteItem.pyex pl _ => Mid.pyex pl
  | NoteItem.list its => Mid.rawList its
  | NoteItem.sub its t => Mid.model sub (specGroup sub (specConvertItems sub its)) t
  | NoteItem.other => Mid.rawOther

/-- Spec-side conversion of an item list. -/
def specConvertItems (sub : Nat) : List NoteItem → List Mid
  | [] => []
  | i :: rest => specConvertItem sub i :: specConvertItems sub rest
end

/-- Spec-side description of `to_models`, written from the claim: convert
the items, group maximal string runs, and wrap as
`top_model(final_items, title=self.title)` when `top_model` is not
`None`. -/
def to_models_spec (n : LectureNotes) (top : Option Nat) (sub : Nat) :
    MItem ⊕ List MItem :=
  match top with
  | some c => Sum.inl (MItem.topM c (specGroup sub (specConvertItems sub n.items)) n.title)
  | none => Sum.inr (specGroup sub (specConvertItems sub n.items))

/-- Flushing a pending string run in front of an already grouped output:
the shape `groupGo` produces for an arbitrary accumulator. -/
def prependRun (sub : Nat) (cur : List SP) (out : List MItem) : List MItem :=
  if cur.isEmpty then out
  else
    match out with
    | MItem.subM c run :: rest => MItem.subM c (cur ++ run) :: rest
    | _ => MItem.subM sub cur :: out

/-- The body of `LectureNotes.to_rst` (line 86) applied to an already
collected list of bullet lines: newline, then each line prefixed with
a bullet dash, joined with newlines, then a final newline. -/
def rstRender (lines : List String) : String :=
  "\n" ++ String.intercalate ("\n") (lines.map (fun l => "- " ++ l)) ++ "\n"

mutual
/-- Embedding of `to_rst_bullet_content` (lines 103-111): strings give one
line; lists/tuples give one line that space-joins the chained recursive
renderings; objects exposing `to_rst` (a `Serializable`, or a nested
`LectureNotes`, whose `to_rst` is inlined here) give that result as one
line; anything else raises `ValueError` (`Except.error`). -/
def to_rst_bullet_content : NoteItem → Except String (List String)
  | NoteItem.str s => Except.ok [s]
  | NoteItem.list its =>
      match bulletContentsList its with
      | Except.ok lss => Except.ok [String.intercalate (" ") lss.flatten]
      | Except.error m => Except.error m
  | NoteItem.pyex _ rst => Except.ok [rst]
  | NoteItem.sub its _ =>
      match bulletContentsList its with
      | Except.ok lss => Except.ok [rstRender lss.flatten]
      | Except.error m => Except.error m
  | NoteItem.other => Except.error ("could not serialize item to rst")

/-- The sub-item comprehension of line 107 (and the `lines` loop of
lines 83-85): render each item in order, propagating the first
exception. -/
def bulletContentsList : List NoteItem → Except String (List (List String))
  | [] => Except.ok []
  | i :: rest =>
      match to_rst_bullet_content i with
      | Except.error m => Except.error m
      | Except.ok r =>
        match bulletContentsList rest with
        | Except.error m => Except.error m
        | Except.ok rs => Except.ok (r :: rs)
end

/-- Embedding of `LectureNotes.to_rst` (lines 82-86): extend `lines` with
the bullet content of each item in order, then render. -/
def LectureNotes.to_rst (n : LectureNotes) : Except String String :=
  match bulletContentsList n.items with
  | Except.ok lss => Except.ok (rstRender lss.flatten)
  | Except.error m => Except.error m

mutual
/-- An item contains, through nested list/tuple items or nested
`LectureNotes` items, an object that is not a string, not a list or
tuple, and does not expose `to_rst`. -/
def hasBad : NoteItem → Bool
  | NoteItem.other => true
  | NoteItem.list its => hasBadList its
  | NoteItem.sub its _ => hasBadList its
  | _ => false

/-- `hasBad` over an item list. -/
def hasBadList : List NoteItem → Bool
  | [] => false
  | i :: rest => hasBad i || hasBadList rest
end

/-- Whether an embedded Python call returned normally (`true`) or raised
(`false`). -/
def isOkB : Except String α → Bool
  | Except.ok _ => true
  | Except.error _ => false

/-- Embedding of the `Lecture` pydantic dataclass (lines 212-218). -/
structure Lecture where
  title : String
  week_covered : Int
  notes : Option LectureNotes := none
  youtube_id : Option String := none
  resources : Option (List LectureResource) := none

/-- Embedding of the `LectureGroup` pydantic dataclass (lines 261-267). -/
structure LectureGroup where
  title : String
  description : String
  lectures : List Lecture
  order : Int ⊕ String
  global_resources : List LectureResource := []

/-- The inner loops of the `LectureGroup.resources` property
(lines 286-289): append each of a lecture's resources unless an equal
resource (under `LectureResource.__eq__`, existing element on the left as
in CPython's `in`) was already collected. -/
def addLectureResources (acc : List LectureResource) : List LectureResource → List LectureResource
  | [] => acc
  | r :: rest =>
    if acc.any (fun e => LectureResource.eq e r)
    then addLectureResources acc rest
    else addLectureResources (acc ++ [r]) rest

/-- One step of the outer loop of `LectureGroup.resources` (lines 285-289):
`if lecture.resources:` is falsy both for `None` and for an empty list. -/
def addLecture (acc : List LectureResource) (lec : Lecture) : List LectureResource :=
  match lec.resources with
  | some rs => if rs.isEmpty then acc else addLectureResources acc rs
  | none => acc

/-- Embedding of the `LectureGroup.resources` property (lines 282-290):
start from `list(self.global_resources)` and scan the lectures in order. -/
def LectureGroup.resources (g : LectureGroup) : List LectureResource :=
  g.lectures.foldl addLecture g.global_resources

/-- Embedding of `LectureGroup.lectures_for_week` (lines 314-315). -/
def LectureGroup.lectures_for_week (g : LectureGroup) (week_num : Int) : List Lecture :=
  g.lectures.filter (fun exc => exc.week_covered == week_num)

/-- Deduplication property of a resource list from position `k` on: an
element at position `j ≥ k` is unequal (in both argument orders of
`LectureResource.__eq__`) to every element before it. -/
def DedupFrom (k : Nat) (l : List LectureResource) : Prop :=
  ∀ i j (hi : i < l.length) (hj : j < l.length), k ≤ j → i < j →
    LectureResource.eq (l.get ⟨j, hj⟩) (l.get ⟨i, hi⟩) = false ∧
    LectureResource.eq (l.get ⟨i, hi⟩) (l.get ⟨j, hj⟩) = false

/-- Symmetry of the embedded `LectureResource.__eq__` between two
resources (each field comparison is symmetric). -/
theorem lectureResource_eq_comm (a b : LectureResource) :
    LectureResource.eq a b = LectureResource.eq b a := by
  simp only [LectureResource.eq]
  cases h1 : a.name == b.name <;> cases h2 : a.static_url == b.static_url <;>
    cases h3 : a.external_url == b.external_url <;>
    simp_all [beq_iff_eq] <;> simp_all [eq_comm]

/-- C6: `LectureResource.url` returns `/_static/` prepended to
`static_url` whenever `static_url` is set (regardless of `external_url`),
returns `external_url` when only that is set, and `None` when both are
missing. -/
theorem lectureResource_url_spec (r : LectureResource) :
    (∀ s, r.static_url = some s → r.url = some ("/_static/" ++ s)) ∧
    (r.static_url = none → ∀ e, r.external_url = some e → r.url = some e) ∧
    (r.static_url = none → r.external_url = none → r.url = none) := by
  refine ⟨?_, ?_, ?_⟩
  · intro s hs
    simp [LectureResource.url, hs]
  · intro hs e he
    simp [LectureResource.url, hs, he]
  · intro hs he
    simp [LectureResource.url, hs, he]

/-- Witness for C6: the three branches of `url` evaluated on concrete
resources. -/
theorem lectureResource_url_spec_witness :
    LectureResource.url { name := "a", static_url := some ("s"), external_url := some ("e") }
      = some ("/_static/s") ∧
    LectureResource.url { name := "a", external_url := some ("e") } = some ("e") ∧
    LectureResource.url { name := "a" } = none :=
  ⟨(lectureResource_url_spec _).1 ("s") rfl,
   (lectureResource_url_spec _).2.1 rfl ("e") rfl,
   (lectureResource_url_spec _).2.2 rfl rfl⟩

/-- C7: `LectureResource.to_rst` raises `ValueError` exactly when both
`static_url` and `external_url` are `None`; with `static_url` set it
returns the download-directive form, and with only `external_url` set the
external-link form. -/
theorem lectureResource_to_rst_spec (r : LectureResource) :
    ((∃ m, r.to_rst = Except.error m) ↔ (r.static_url = none ∧ r.external_url = none)) ∧
    (∀ s, r.static_url = some s →
      r.to_rst = Except.ok
        ("\n- :download:`" ++ r.display_name ++ " <" ++ ("/_static/" ++ s) ++ ">`\n        ")) ∧
    (r.static_url = none → ∀ e, r.external_url = some e →
      r.to_rst = Except.ok
        ("\n- `" ++ r.display_name ++ " <" ++ e ++ ">`_\n        ")) := by
  refine ⟨?_, ?_, ?_⟩
  · cases hs : r.static_url with
    | some s => simp [LectureResource.to_rst, hs]
    | none =>
      cases he : r.external_url with
      | some e => simp [LectureResource.to_rst, hs, he]
      | none => simp [LectureResource.to_rst, hs, he]
  · intro s hs
    simp [LectureResource.to_rst, LectureResource.url, optToString, hs]
  · intro hs e he
    simp [LectureResource.to_rst, LectureResource.url, optToString, hs, he]

/-- Witness for C7: the error case and both link forms on concrete
resources. -/
theorem lectureResource_to_rst_spec_witness :
    (∃ m, LectureResource.to_rst { name := "a" } = Except.error m) ∧
    LectureResource.to_rst { name := "a", static_url := some ("s") }
      = Except.ok ("\n- :download:`a </_static/s>`\n        ") ∧
    LectureResource.to_rst { name := "a", external_url := some ("e") }
      = Except.ok ("\n- `a <e>`_\n        ") :=
  ⟨(lectureResource_to_rst_spec _).1.mpr ⟨rfl, rfl⟩,
   (lectureResource_to_rst_spec _).2.1 ("s") rfl,
   (lectureResource_to_rst_spec _).2.2 rfl ("e") rfl⟩

/-- C9: `LectureResource.__eq__` compares only the `name`, `static_url`
and `external_url` fields (so resources agreeing on those three are equal
whatever their `updated`, `index` or `datetime_fmt`), and comparing with
an object lacking any of those attributes returns `False` instead of
raising. -/
theorem lectureResource_eq_fields_only :
    (∀ a b : LectureResource, LectureResource.eq a b = true ↔
      (a.name = b.name ∧ a.static_url = b.static_url ∧ a.external_url = b.external_url)) ∧
    (∀ (a : LectureResource) (o : DuckObj),
      o.name = none ∨ o.static_url = none ∨ o.external_url = none →
      LectureResource.eqDuck a o = false) := by
  constructor
  · intro a b
    simp [LectureResource.eq, and_assoc]
  · intro a o h
    cases hn : o.name with
    | none => simp [LectureResource.eqDuck, hn]
    | some n =>
      cases hs : o.static_url with
      | none => simp [LectureResource.eqDuck, hn, hs]
      | some s =>
        cases he : o.external_url with
        | none => simp [LectureResource.eqDuck, hn, hs, he]
        | some e => simp_all

/-- Witness for C9: two resources differing only in `updated`, `index`
and `datetime_fmt` compare equal, and a comparand missing the `name`
attribute compares unequal. -/
theorem lectureResource_eq_fields_only_witness :
    LectureResource.eq
      { name := "a", static_url := some ("s"), index := some 1, datetime_fmt := "f" }
      { name := "a", static_url := some ("s"), updated := some ⟨fun _ => "x"⟩,
        index := some 2, datetime_fmt := "g" } = true ∧
    LectureResource.eqDuck { name := "a" } ⟨none, some (some ("s")), some none⟩ = false :=
  ⟨(lectureResource_eq_fields_only.1 _ _).mpr ⟨rfl, rfl, rfl⟩,
   lectureResource_eq_fields_only.2 _ _ (Or.inl rfl)⟩

/-- C8: `lectures_for_week` returns exactly the lectures whose
`week_covered` equals the requested week, in their original relative
order (it is a sublist of `lectures` whose membership is characterized by
the week predicate). -/
theorem lectures_for_week_spec (g : LectureGroup) (w : Int) :
    List.Sublist (g.lectures_for_week w) g.lectures ∧
    ∀ l, l ∈ g.lectures_for_week w ↔ (l ∈ g.lectures ∧ l.week_covered = w) := by
  constructor
  · exact List.filter_sublist g.lectures
  · intro l
    simp [LectureGroup.lectures_for_week, List.mem_filter]

/-- C5: both renderers are total Lean functions over every finite
`LectureNotes` tree; the recursions in `convertItem`/`convertItems` and
`to_rst_bullet_content`/`bulletContentsList` descend only into strictly
smaller subtrees, which is what lets Lean accept them as terminating. -/
theorem notes_renderers_terminate (n : LectureNotes) (top : Option Nat) (sub : Nat) :
    (∃ m, LectureNotes.to_models n top sub = m) ∧ (∃ r, LectureNotes.to_rst n = r) :=
  ⟨⟨_, rfl⟩, ⟨_, rfl⟩⟩

/-- Appending a resource that compares unequal to every collected element
preserves the deduplication invariant. -/
theorem dedupFrom_append (k : Nat) (acc : List LectureResource) (r : LectureResource)
    (hall : ∀ e ∈ acc, LectureResource.eq e r = false)
    (hd : DedupFrom k acc) : DedupFrom k (acc ++ [r]) := by
  intro i j hi hj hk hij
  have hlen : (acc ++ [r]).length = acc.length + 1 := by simp
  by_cases hjl : j < acc.length
  · have hil : i < acc.length := Nat.lt_trans hij hjl
    have e1 : (acc ++ [r]).get ⟨j, hj⟩ = acc.get ⟨j, hjl⟩ := by
      simp [List.get_eq_getElem, List.getElem_append_left hjl]
    have e2 : (acc ++ [r]).get ⟨i, hi⟩ = acc.get ⟨i, hil⟩ := by
      simp [List.get_eq_getElem, List.getElem_append_left hil]
    rw [e1, e2]
    exact hd i j hil hjl hk hij
  · have hje : j = acc.length := by
      rw [hlen] at hj
      omega
    subst hje
    have e1 : (acc ++ [r]).get ⟨acc.length, hj⟩ = r := by
      simp [List.get_eq_getElem, List.getElem_concat_length]
    have hil : i < acc.length := hij
    have e2 : (acc ++ [r]).get ⟨i, hi⟩ = acc.get ⟨i, hil⟩ := by
      simp [List.get_eq_getElem, List.getElem_append_left hil]
    rw [e1, e2]
    have hf : LectureResource.eq (acc.get ⟨i, hil⟩) r = false :=
      hall _ (List.get_mem acc i hil)
    exact ⟨by rw [lectureResource_eq_comm]; exact hf, hf⟩

/-- The inner dedup loop keeps the invariant and never shortens the
list. -/
theorem addLectureResources_dedup (k : Nat) (rs : List LectureResource) :
    ∀ acc, k ≤ acc.length → DedupFrom k acc →
    k ≤ (addLectureResources acc rs).length ∧ DedupFrom k (addLectureResources acc rs) := by
  induction rs with
  | nil =>
    intro acc h1 h2
    simpa [addLectureResources] using And.intro h1 h2
  | cons r rest ih =>
    intro acc h1 h2
    by_cases h : acc.any (fun e => LectureResource.eq e r) = true
    · simpa [addLectureResources, h] using ih acc h1 h2
    · have hfalse : acc.any (fun e => LectureResource.eq e r) = false := by
        simpa using h
      have hall : ∀ e ∈ acc, LectureResource.eq e r = false := by
        intro e he
        simpa using List.any_eq_false.mp hfalse e he
      have hlen : k ≤ (acc ++ [r]).length := by
        simp only [List.length_append, List.length_cons, List.length_nil]
        omega
      simpa [addLectureResources, hfalse] using
        ih (acc ++ [r]) hlen (dedupFrom_append k acc r hall h2)

/-- Processing one lecture keeps the invariant and never shortens the
list. -/
theorem addLecture_dedup (k : Nat) (acc : List LectureResource) (lec : Lecture)
    (h1 : k ≤ acc.length) (h2 : DedupFrom k acc) :
    k ≤ (addLecture acc lec).length ∧ DedupFrom k (addLecture acc lec) := by
  cases hres : lec.resources with
  | none => simpa [addLecture, hres] using And.intro h1 h2
  | some rs =>
    by_cases he : rs.isEmpty
    · simpa [addLecture, hres, he] using And.intro h1 h2
    · simpa [addLecture, hres, he] using addLectureResources_dedup k rs acc h1 h2

/-- Folding the lecture scan keeps the invariant. -/
theorem foldl_addLecture_dedup (k : Nat) :
    ∀ (lecs : List Lecture) (acc : List LectureResource), k ≤ acc.length → DedupFrom k acc →
    k ≤ (lecs.foldl addLecture acc).length ∧ DedupFrom k (lecs.foldl addLecture acc) := by
  intro lecs
  induction lecs with
  | nil =>
    intro acc h1 h2
    simpa using And.intro h1 h2
  | cons lec rest ih =>
    intro acc h1 h2
    have h := addLecture_dedup k acc lec h1 h2
    simpa [List.foldl_cons] using ih (addLecture acc lec) h.1 h.2

/-- C1: in the list returned by the `LectureGroup.resources` property, a
resource gathered from the lectures (any position at or past the end of
the `global_resources` prefix) is unequal, under `LectureResource.__eq__`,
to every resource that precedes it. -/
theorem lectureGroup_resources_dedup (g : LectureGroup) (i j : Nat)
    (hi : i < (LectureGroup.resources g).length)
    (hj : j < (LectureGroup.resources g).length)
    (hk : g.global_resources.length ≤ j) (hij : i < j) :
    LectureResource.eq ((LectureGroup.resources g).get ⟨j, hj⟩)
      ((LectureGroup.resources g).get ⟨i, hi⟩) = false := by
  have hinit : DedupFrom g.global_resources.length g.global_resources := by
    intro i' j' hi' hj' hk' hij'
    exact absurd hj' (by omega)
  have h := foldl_addLecture_dedup g.global_resources.length g.lectures
    g.global_resources (Nat.le_refl _) hinit
  exact (h.2 i j hi hj hk hij).1

/-- Witness for C1: a group with one global resource and one lecture
resource; the lecture-derived entry at position 1 is unequal to its
predecessor. -/
theorem lectureGroup_resources_dedup_witness :
    LectureResource.eq
      ((LectureGroup.resources
        { title := "t", description := "d",
          lectures := [{ title := "l", week_covered := 1,
                         resources := some [{ name := "b" }] }],
          order := Sum.inl 1,
          global_resources := [{ name := "a" }] }).get ⟨1, by decide⟩)
      ((LectureGroup.resources
        { title := "t", description := "d",
          lectures := [{ title := "l", week_covered := 1,
                         resources := some [{ name := "b" }] }],
          order := Sum.inl 1,
          global_resources := [{ name := "a" }] }).get ⟨0, by decide⟩) = false :=
  lectureGroup_resources_dedup
    { title := "t", description := "d",
      lectures := [{ title := "l", week_covered := 1,
                     resources := some [{ name := "b" }] }],
      order := Sum.inl 1,
      global_resources := [{ name := "a" }] }
    0 1 (by decide) (by decide) (by decide) (by decide)

/-- The inner dedup loop only ever appends to the collected list. -/
theorem addLectureResources_extend (rs : List LectureResource) :
    ∀ acc, ∃ t, addLectureResources acc rs = acc ++ t := by
  induction rs with
  | nil =>
    intro acc
    exact ⟨[], by simp [addLectureResources]⟩
  | cons r rest ih =>
    intro acc
    by_cases h : acc.any (fun e => LectureResource.eq e r) = true
    · obtain ⟨t, ht⟩ := ih acc
      exact ⟨t, by simp [addLectureResources, h, ht]⟩
    · have hfalse : acc.any (fun e => LectureResource.eq e r) = false := by
        simpa using h
      obtain ⟨t, ht⟩ := ih (acc ++ [r])
      refine ⟨r :: t, ?_⟩
      simp [addLectureResources, hfalse, ht]

/-- Processing one lecture only ever appends to the collected list. -/
theorem addLecture_extend (acc : List LectureResource) (lec : Lecture) :
    ∃ t, addLecture acc lec = acc ++ t := by
  cases hres : lec.resources with
  | none => exact ⟨[], by simp [addLecture, hres]⟩
  | some rs =>
    by_cases he : rs.isEmpty
    · exact ⟨[], by simp [addLecture, hres, he]⟩
    · obtain ⟨t, ht⟩ := addLectureResources_extend rs acc
      exact ⟨t, by simp [addLecture, hres, he, ht]⟩

/-- The lecture scan only ever appends to the collected list. -/
theorem foldl_addLecture_extend :
    ∀ (lecs : List Lecture) (acc : List LectureResource),
    ∃ t, lecs.foldl addLecture acc = acc ++ t := by
  intro lecs
  induction lecs with
  | nil =>
    intro acc
    exact ⟨[], by simp⟩
  | cons lec rest ih =>
    intro acc
    obtain ⟨t1, ht1⟩ := addLecture_extend acc lec
    obtain ⟨t2, ht2⟩ := ih (addLecture acc lec)
    rw [ht1] at ht2
    exact ⟨t1 ++ t2, by simp [List.foldl_cons, ht1, ht2]⟩

/-- C10: the list returned by the `LectureGroup.resources` property begins
with `global_resources` verbatim (duplicates included); deduplication only
affects what is appended after them. -/
theorem lectureGroup_resources_global_first (g : LectureGroup) :
    ∃ rest, LectureGroup.resources g = g.global_resources ++ rest :=
  foldl_addLecture_extend g.lectures g.global_resources

/-- Flushing an empty pending run changes nothing. -/
theorem prependRun_nil (sub : Nat) (out : List MItem) :
    prependRun sub [] out = out := rfl

/-- Moving one element from the end of the pending run into the grouped
output commutes with flushing. -/
theorem prependRun_push (sub : Nat) (cur : List SP) (x : SP) (out : List MItem) :
    prependRun sub (cur ++ [x]) out = prependRun sub cur (pushSP sub x out) := by
  cases cur with
  | nil =>
    cases out with
    | nil => rfl
    | cons h t => cases h <;> rfl
  | cons c cs =>
    cases out with
    | nil => rfl
    | cons h t => cases h <;> simp [prependRun, pushSP, List.append_assoc]

/-- The accumulator loop of `to_models` computes the maximal-run grouping:
running it with pending run `cur` equals flushing `cur` in front of the
spec-side grouping. -/
theorem groupGo_prependRun (sub : Nat) :
    ∀ (l : List Mid) (cur : List SP),
    groupGo sub l cur = prependRun sub cur (specGroup sub l) := by
  intro l
  induction l with
  | nil =>
    intro cur
    cases cur <;> rfl
  | cons m rest ih =>
    intro cur
    cases m with
    | str s => simp [groupGo, specGroup, ih, prependRun_push]
    | pyex p => simp [groupGo, specGroup, ih, prependRun_push]
    | model c its t => cases cur <;> simp [groupGo, specGroup, prependRun, ih, prependRun_nil]
    | rawList its => cases cur <;> simp [groupGo, specGroup, prependRun, ih, prependRun_nil]
    | rawOther => cases cur <;> simp [groupGo, specGroup, prependRun, ih, prependRun_nil]

mutual
/-- The source-side conversion of a single item agrees with the spec-side
conversion. -/
theorem convertItem_eq_spec (sub : Nat) (i : NoteItem) :
    convertItem sub i = specConvertItem sub i := by
  cases i with
  | str s => rfl
  | pyex pl rst => rfl
  | list its => rfl
  | other => rfl
  | sub its t =>
    have h := convertItems_eq_spec sub its
    simp [convertItem, specConvertItem, h, groupGo_prependRun, prependRun_nil]

/-- The source-side conversion of an item list agrees with the spec-side
conversion. -/
theorem convertItems_eq_spec (sub : Nat) (l : List NoteItem) :
    convertItems sub l = specConvertItems sub l := by
  cases l with
  | nil => rfl
  | cons i rest =>
    have h1 := convertItem_eq_spec sub i
    have h2 := convertItems_eq_spec sub rest
    simp [convertItems, specConvertItems, h1, h2]
end

/-- C2: `LectureNotes.to_models` computes exactly the spec-side
description: nested notes recursively converted with `sub_model` as top
model, maximal runs of consecutive strings (and serialized `to_pyexlatex`
results) collected into single `sub_model` instances, and the final item
list wrapped as `top_model(final_items, title=self.title)` when
`top_model` is not `None`. -/
theorem to_models_eq_spec (n : LectureNotes) (top : Option Nat) (sub : Nat) :
    LectureNotes.to_models n top sub = to_models_spec n top sub := by
  cases top with
  | some c =>
    simp [LectureNotes.to_models, to_models_spec, convertItems_eq_spec,
      groupGo_prependRun, prependRun_nil]
  | none =>
    simp [LectureNotes.to_models, to_models_spec, convertItems_eq_spec,
      groupGo_prependRun, prependRun_nil]

/-- The rendered notes string begins with a newline character. -/
theorem rstRender_first (lines : List String) : (rstRender lines).data.head? = some '\n' := by
  simp [rstRender, String.data_append]

/-- The rendered notes string ends with a newline character. -/
theorem rstRender_last (lines : List String) : (rstRender lines).data.getLast? = some '\n' := by
  have h : (rstRender lines).data =
      ('\n' :: (String.intercalate ("\n") (lines.map (fun l => "- " ++ l))).data) ++ ['\n'] := by
    simp [rstRender, String.data_append]
  rw [h, List.getLast?_concat]

/-- C3: a successful `LectureNotes.to_rst` is a newline, then the collected
content lines each prefixed with a bullet dash and joined by newlines, then
a final newline; a string item contributes exactly one line (itself), and a
list/tuple item contributes exactly one line, the space-join of its
recursively rendered sub-items. -/
theorem notes_to_rst_shape :
    (∀ (n : LectureNotes) (s : String), LectureNotes.to_rst n = Except.ok s →
      ∃ lines : List String,
        s = "\n" ++ String.intercalate ("\n") (lines.map (fun l => "- " ++ l)) ++ "\n" ∧
        s.data.head? = some '\n' ∧ s.data.getLast? = some '\n') ∧
    (∀ s, to_rst_bullet_content (NoteItem.str s) = Except.ok [s]) ∧
    (∀ (its : List NoteItem) (lss : List (List String)),
      bulletContentsList its = Except.ok lss →
      to_rst_bullet_content (NoteItem.list its) =
        Except.ok [String.intercalate (" ") lss.flatten]) := by
  refine ⟨?_, ?_, ?_⟩
  · intro n s h
    cases hb : bulletContentsList n.items with
    | error m => simp [LectureNotes.to_rst, hb] at h
    | ok lss =>
      simp only [LectureNotes.to_rst, hb, Except.ok.injEq] at h
      refine ⟨lss.flatten, ?_, ?_, ?_⟩
      · rw [← h]; rfl
      · rw [← h]; exact rstRender_first _
      · rw [← h]; exact rstRender_last _
  · intro s
    rfl
  · intro its lss h
    simp [to_rst_bullet_content, h]

/-- Witness for C3: concrete evaluations of the shape, the string-item
case and the list-item case. -/
theorem notes_to_rst_shape_witness :
    (∃ lines : List String,
      "\n- a\n- b\n" =
        "\n" ++ String.intercalate ("\n") (lines.map (fun l => "- " ++ l)) ++ "\n" ∧
      ("\n- a\n- b\n").data.head? = some '\n' ∧
      ("\n- a\n- b\n").data.getLast? = some '\n') ∧
    to_rst_bullet_content (NoteItem.str ("a")) = Except.ok ["a"] ∧
    to_rst_bullet_content (NoteItem.list [NoteItem.str ("x"), NoteItem.str ("y")]) =
      Except.ok ["x y"] :=
  ⟨notes_to_rst_shape.1 ⟨[NoteItem.str ("a"), NoteItem.str ("b")], "T"⟩ ("\n- a\n- b\n") rfl,
   notes_to_rst_shape.2.1 ("a"),
   notes_to_rst_shape.2.2 [NoteItem.str ("x"), NoteItem.str ("y")] [["x"], ["y"]] rfl⟩

/-- Counterexample to C4 as stated: a list/tuple item (which by the claim
should never raise) still raises `ValueError` when one of its elements is
serializable in none of the supported ways. -/
theorem bullet_content_list_raises :
    to_rst_bullet_content (NoteItem.list [NoteItem.other]) =
      Except.error ("could not serialize item to rst") := rfl

mutual
/-- `to_rst_bullet_content` succeeds exactly when the item contains no bad
object through nested lists and nested notes. -/
theorem bullet_content_ok_iff (i : NoteItem) :
    isOkB (to_rst_bullet_content i) = !(hasBad i) := by
  cases i with
  | str s => rfl
  | pyex pl rst => rfl
  | other => rfl
  | list its =>
    have h := bullet_contents_ok_iff its
    cases hb : bulletContentsList its with
    | ok lss =>
      have hbad : hasBadList its = false := by
        rw [hb] at h
        simpa [isOkB] using h.symm
      simp [to_rst_bullet_content, hb, hasBad, isOkB, hbad]
    | error m =>
      have hbad : hasBadList its = true := by
        rw [hb] at h
        simpa [isOkB] using h.symm
      simp [to_rst_bullet_content, hb, hasBad, isOkB, hbad]
  | sub its t =>
    have h := bullet_contents_ok_iff its
    cases hb : bulletContentsList its with
    | ok lss =>
      have hbad : hasBadList its = false := by
        rw [hb] at h
        simpa [isOkB] using h.symm
      simp [to_rst_bullet_content, hb, hasBad, isOkB, hbad]
    | error m =>
      have hbad : hasBadList its = true := by
        rw [hb] at h
        simpa [isOkB] using h.symm
      simp [to_rst_bullet_content, hb, hasBad, isOkB, hbad]

/-- `bulletContentsList` succeeds exactly when no listed item contains a
bad object. -/
theorem bullet_contents_ok_iff (l : List NoteItem) :
    isOkB (bulletContentsList l) = !(hasBadList l) := by
  cases l with
  | nil => rfl
  | cons i rest =>
    have h1 := bullet_content_ok_iff i
    have h2 := bullet_contents_ok_iff rest
    cases hc : to_rst_bullet_content i with
    | error m =>
      have hbi : hasBad i = true := by
        rw [hc] at h1
        simpa [isOkB] using h1.symm
      simp [bulletContentsList, hc, hasBadList, isOkB, hbi]
    | ok r =>
      have hbi : hasBad i = false := by
        rw [hc] at h1
        simpa [isOkB] using h1.symm
      cases hcr : bulletContentsList rest with
      | error m =>
        have hbr : hasBadList rest = true := by
          rw [hcr] at h2
          simpa [isOkB] using h2.symm
        simp [bulletContentsList, hc, hcr, hasBadList, isOkB, hbi, hbr]
      | ok rs =>
        have hbr : hasBadList rest = false := by
          rw [hcr] at h2
          simpa [isOkB] using h2.symm
        simp [bulletContentsList, hc, hcr, hasBadList, isOkB, hbi, hbr]
end

/-- C4 amended: `to_rst_bullet_content` raises `ValueError` if and only if
the item contains, reachable through nested list/tuple items or nested
`LectureNotes` items, an object that is not a string, not a list or tuple,
and does not expose `to_rst`; an object exposing `to_rst` directly is
rendered via that method and its own dispatch never raises. -/
theorem bullet_content_error_iff :
    (∀ i, (∃ m, to_rst_bullet_content i = Except.error m) ↔ hasBad i = true) ∧
    (∀ pl rst, to_rst_bullet_content (NoteItem.pyex pl rst) = Except.ok [rst]) := by
  constructor
  · intro i
    have h := bullet_content_ok_iff i
    cases hc : to_rst_bullet_content i with
    | ok r =>
      rw [hc] at h
      constructor
      · rintro ⟨m, hm⟩
        exact absurd hm (by simp)
      · intro hbad
        rw [hbad] at h
        simp [isOkB] at h
    | error m =>
      rw [hc] at h
      constructor
      · intro _
        have : (!hasBad i) = false := by simpa [isOkB] using h.symm
        simpa using this
      · intro _
        exact ⟨m, rfl⟩
  · intro pl rst
    rfl
